import Mathlib

/-!
Verification of the HT16K33 LED-backpack driver (`drivers/i2c/ht16k33_driver.go`).

The driver is embedded shallowly.  A bus connection is modelled as an oracle
`Conn : Nat → Option HTErr` telling, for the k-th bus operation attempted since
the point of interest, whether it succeeds (`none`) or fails with a given error.
Every driver method returns the outcome of the call together with the list of
bus operations it attempted, in order.  Go's `uint8` positions and `uint16`
register words stay well below their bounds in all reachable code, so they are
modelled as `Nat`; Go's `int` is modelled as `Int`.  An out-of-range slice
index, which aborts a Go program at run time, is modelled by the distinguished
outcome `panicked`.
-/

namespace HT16K33

/-- Errors a driver call can return: the driver's four exported error values,
the two error kinds of `strconv` (`ErrSyntax` from `Atoi`/`ParseUint`,
`ErrRange` from `ParseUint` with `bitSize` 16), and an opaque bus-transport
error injected by the connection. -/
inductive HTErr where
  | numberTooBig
  | digitTooBig
  | binaryTooBig
  | positionOutOfRange
  | errSyntax
  | errRange
  | busError (code : Nat)
  deriving DecidableEq, Repr

/-- One operation on the i2c connection: `WriteByte v`, `ReadByte`, or
`WriteWordData reg v`. -/
inductive BusOp where
  | writeByte (v : Nat)
  | readByte
  | writeWord (reg : Nat) (v : Nat)
  deriving DecidableEq, Repr

/-- Outcome of a driver call: normal return, error return, or a Go runtime
panic (out-of-range slice index). -/
inductive Outcome (α : Type) where
  | ok (a : α)
  | error (e : HTErr)
  | panicked
  deriving DecidableEq, Repr

/-- Connection oracle: result of the k-th bus operation attempted
(`none` = success). -/
abbrev Conn := Nat → Option HTErr

/-- Attempt one bus operation as the k-th operation: the operation is issued
(recorded in the trace) and succeeds or fails as the connection dictates. -/
def busOp (conn : Conn) (k : Nat) (op : BusOp) : Outcome Unit × List BusOp :=
  match conn k with
  | none => (.ok (), [op])
  | some e => (.error e, [op])

/-- The driver's fixed segment-pattern table `digit`, indexed by digit value. -/
def digit : List Nat :=
  [0x0C3F, 0x0006, 0x00DB, 0x004F, 0x00E6, 0x00ED, 0x00FD, 0x0007, 0x00FF,
   0x00EF]

/-- `SetDisplay`: one byte write of the display register OR'd with the
display-on bit (or zero). -/
def SetDisplay (conn : Conn) (k : Nat) (isOn : Bool) : Outcome Unit × List BusOp :=
  let v : Nat := if isOn then 0x01 else 0x00
  busOp conn k (.writeByte (0x80 ||| v))

/-- `SetBrightness`: clamp the level to 15, then one byte write of the
brightness register OR'd with the clamped level. -/
def SetBrightness (conn : Conn) (k : Nat) (b : Nat) : Outcome Unit × List BusOp :=
  let b' := if b > 15 then 15 else b
  busOp conn k (.writeByte (0xE0 ||| b'))

/-- `Start` after the connection has been acquired: oscillator-enable byte,
dummy read, display on, brightness 15 — each step aborting the sequence on
failure.  `getConnErr` models a failure of `GetConnection` itself, which
happens before any bus operation. -/
def Start (conn : Conn) (getConnErr : Option HTErr) : Outcome Unit × List BusOp :=
  match getConnErr with
  | some e => (.error e, [])
  | none =>
    match busOp conn 0 (.writeByte (0x20 ||| 0x21)) with
    | (.ok _, t1) =>
      match busOp conn 1 .readByte with
      | (.ok _, t2) =>
        match SetDisplay conn 2 true with
        | (.ok _, t3) =>
          match SetBrightness conn 3 15 with
          | (o, t4) => (o, t1 ++ t2 ++ t3 ++ t4)
        | (o, t3) => (o, t1 ++ t2 ++ t3)
      | (o, t2) => (o, t1 ++ t2)
    | (o, t1) => (o, t1)

/-- The loop body of `Clear`: write a zero word to registers `p*2`,
`(p+1)*2`, … for `count` iterations, stopping at the first failure.
(`Clear` runs it with `p = 0`, `count = 5`.) -/
def clearLoop (conn : Conn) (k p : Nat) : Nat → Outcome Unit × List BusOp
  | 0 => (.ok (), [])
  | count + 1 =>
    match busOp conn k (.writeWord (p * 2) 0x0000) with
    | (.ok _, t) =>
      let r := clearLoop conn (k + 1) (p + 1) count
      (r.1, t ++ r.2)
    | (o, t) => (o, t)

/-- `Clear`: write the 16-bit zero to the five physical word registers. -/
def Clear (conn : Conn) (k : Nat) : Outcome Unit × List BusOp :=
  clearLoop conn k 0 5

/-- One character of `strconv.ParseUint(b, 2, 16)`: only '0' and '1' are
valid base-2 digits. -/
def binDigit (c : Char) : Except HTErr Nat :=
  if c = '0' then .ok 0 else if c = '1' then .ok 1 else .error .errSyntax

/-- The digit loop of `strconv.ParseUint(b, 2, 16)`: accumulate the value,
failing with `ErrSyntax` on an invalid character and with `ErrRange` as soon
as the accumulated value exceeds the 16-bit maximum 65535. -/
def parseBinLoop : List Char → Nat → Except HTErr Nat
  | [], acc => .ok acc
  | c :: rest, acc =>
    match binDigit c with
    | .error e => .error e
    | .ok b =>
      let acc' := acc * 2 + b
      if acc' > 65535 then .error .errRange else parseBinLoop rest acc'

/-- `strconv.ParseUint(b, 2, 16)`: the empty string is a syntax error;
otherwise run the digit loop from 0. -/
def parseUint2 (s : List Char) : Except HTErr Nat :=
  match s with
  | [] => .error .errSyntax
  | _ :: _ => parseBinLoop s 0

/-- `WriteBinary`: reject positions above 3, shift positions 2 and 3 past the
colon register, parse the binary string, and write the value as one 16-bit
word.  (The `w > 65535` re-check of the driver is kept even though a
successful 16-bit parse never exceeds 65535.) -/
def WriteBinary (conn : Conn) (k : Nat) (pos : Nat) (b : List Char) :
    Outcome Unit × List BusOp :=
  if pos > 3 then (.error .positionOutOfRange, [])
  else
    let pos' := if pos == 2 || pos == 3 then pos + 1 else pos
    match parseUint2 b with
    | .error e => (.error e, [])
    | .ok w =>
      if w > 65535 then (.error .binaryTooBig, [])
      else busOp conn k (.writeWord (pos' * 2) w)

/-- `WriteDigit`: reject positions above 3 and digits above 9, shift positions
2 and 3 past the colon register, and write the digit's segment pattern as one
16-bit word.  A negative digit passes the `d > 9` check and then indexes the
`digit` slice out of range, a run-time panic in Go. -/
def WriteDigit (conn : Conn) (k : Nat) (pos : Nat) (d : Int) :
    Outcome Unit × List BusOp :=
  if pos > 3 then (.error .positionOutOfRange, [])
  else if d > 9 then (.error .digitTooBig, [])
  else
    let pos' := if pos == 2 || pos == 3 then pos + 1 else pos
    if d < 0 then (.panicked, [])
    else busOp conn k (.writeWord (pos' * 2) (digit.getD d.toNat 0))

/-- Decimal digits of a natural number, most significant first, computed like
the digit characters of `strconv.Itoa`; the first argument is recursion fuel
(the number itself is always enough). -/
def digitsLoop : Nat → Nat → List Nat
  | 0, _ => []
  | fuel + 1, n => if n = 0 then [] else digitsLoop fuel (n / 10) ++ [n % 10]

/-- The digit characters of `strconv.Itoa` for a nonnegative value. -/
def itoaDigits (n : Nat) : List Nat :=
  if n = 0 then [0] else digitsLoop n n

/-- The characters of `strconv.Itoa(n)`: `none` stands for the leading minus
sign of a negative value, `some d` for a decimal digit character. -/
def itoaChars (n : Int) : List (Option Nat) :=
  if n < 0 then none :: (itoaDigits n.natAbs).map some
  else (itoaDigits n.toNat).map some

/-- The character loop of `splitNumberIntoDigits`: `strconv.Atoi` each
character of the decimal representation (a minus-sign character is a syntax
error) and right-justify it into the 4-slot output at index
`4 - total + i`. -/
def fillLoop (total : Nat) : List (Option Nat) → Nat → List Int →
    Except HTErr (List Int)
  | [], _, out => .ok out
  | c :: rest, i, out =>
    match c with
    | none => .error .errSyntax
    | some d => fillLoop total rest (i + 1) (out.set (4 - total + i) (d : Int))

/-- `splitNumberIntoDigits`: reject values above 9999, then split the decimal
representation into a left-zero-padded 4-slot digit sequence. -/
def splitNumberIntoDigits (n : Int) : Except HTErr (List Int) :=
  if n > 9999 then .error .numberTooBig
  else
    let chars := itoaChars n
    fillLoop chars.length chars 0 (List.replicate 4 0)

/-- The digit loop of `WriteNumber`: walk the decomposed digits left to
right, skipping slots until the first strictly positive digit has been seen,
then `WriteDigit` every remaining slot, aborting on the first failure. -/
def writeLoop (conn : Conn) : Nat → Nat → Bool → List Int →
    Outcome Unit × List BusOp
  | _, _, _, [] => (.ok (), [])
  | k, pos, found, d :: rest =>
    let found' := if d > 0 then true else found
    if !found' then writeLoop conn k (pos + 1) found' rest
    else
      match WriteDigit conn k pos d with
      | (.ok _, t) =>
        let r := writeLoop conn (k + t.length) (pos + 1) found' rest
        (r.1, t ++ r.2)
      | (o, t) => (o, t)

/-- `WriteNumber`: decompose the number (failure short-circuits before any
bus operation), clear the panel, then run the digit loop. -/
def WriteNumber (conn : Conn) (k : Nat) (n : Int) : Outcome Unit × List BusOp :=
  match splitNumberIntoDigits n with
  | .error e => (.error e, [])
  | .ok digits =>
    match Clear conn k with
    | (.ok _, t) =>
      let r := writeLoop conn (k + t.length) 0 false digits
      (r.1, t ++ r.2)
    | (o, t) => (o, t)

/-! Spec-side definitions, written from the specification's wording so the
code-derived behaviour above can be compared against them. -/

/-- Spec side: the value of a string of binary digits read as a base-2
integer. -/
def binVal (s : List Char) : Nat :=
  s.foldl (fun a c => a * 2 + (if c = '1' then 1 else 0)) 0

/-- Spec side: the colon-skip register mapping — offset `p*2` for positions
0 and 1, offset `(p+1)*2` for positions 2 and 3. -/
def specReg (p : Nat) : Nat :=
  if p ≤ 1 then p * 2 else (p + 1) * 2

/-- Spec side: the five zero word-writes of a full panel clear. -/
def clearOps : List BusOp :=
  [.writeWord 0 0x0000, .writeWord 2 0x0000, .writeWord 4 0x0000,
   .writeWord 6 0x0000, .writeWord 8 0x0000]

/-- Spec side: the word-writes that display the digit sequence `ds` starting
at logical position `pos`, one write per slot at the colon-skip-mapped
register. -/
def digitWritesFrom (pos : Nat) : List Int → List BusOp
  | [] => []
  | d :: rest =>
    .writeWord (specReg pos) (digit.getD d.toNat 0) :: digitWritesFrom (pos + 1) rest

/-- Spec side: the number of leading zero slots of a digit sequence. -/
def leadZeros (ds : List Int) : Nat :=
  (ds.takeWhile (fun d => d ≤ 0)).length

/-- An always-succeeding connection. -/
def connOK : Conn := fun _ => none

/-- A connection whose j-th bus operation fails with `busError 7` and whose
other operations succeed. -/
def connFailAt (j : Nat) : Conn :=
  fun k => if k = j then some (.busError 7) else none

/-! Helper lemmas about the bus primitive and the binary parser. -/

theorem busOp_trace (conn : Conn) (k : Nat) (op : BusOp) :
    (busOp conn k op).2 = [op] := by
  unfold busOp; cases conn k <;> rfl

theorem busOp_ok (conn : Conn) (k : Nat) (op : BusOp) (h : conn k = none) :
    busOp conn k op = (.ok (), [op]) := by
  unfold busOp; rw [h]

theorem parseBinLoop_cons_ok (c : Char) (rest : List Char) (acc b : Nat)
    (h : binDigit c = .ok b) :
    parseBinLoop (c :: rest) acc =
      if acc * 2 + b > 65535 then .error .errRange
      else parseBinLoop rest (acc * 2 + b) := by
  simp only [parseBinLoop, h]

theorem parseBinLoop_cons_err (c : Char) (rest : List Char) (acc : Nat)
    (e : HTErr) (h : binDigit c = .error e) :
    parseBinLoop (c :: rest) acc = .error e := by
  simp only [parseBinLoop, h]

theorem parseBinLoop_le (s : List Char) : ∀ (acc w : Nat), acc ≤ 65535 →
    parseBinLoop s acc = .ok w → w ≤ 65535 := by
  induction s with
  | nil =>
    intro acc w hacc h
    simp only [parseBinLoop] at h
    cases h; omega
  | cons c rest ih =>
    intro acc w hacc h
    cases hbd : binDigit c with
    | error e => rw [parseBinLoop_cons_err c rest acc e hbd] at h; cases h
    | ok b =>
      rw [parseBinLoop_cons_ok c rest acc b hbd] at h
      by_cases hov : acc * 2 + b > 65535
      · rw [if_pos hov] at h; cases h
      · rw [if_neg hov] at h
        exact ih _ w (by omega) h

theorem parseUint2_le (s : List Char) (w : Nat) (h : parseUint2 s = .ok w) :
    w ≤ 65535 := by
  match s with
  | [] => simp [parseUint2] at h
  | c :: rest => exact parseBinLoop_le _ 0 w (by omega) h

theorem parseBinLoop_invalid (s : List Char) :
    ∀ acc, (∃ c ∈ s, ¬(c = '0' ∨ c = '1')) →
    ∃ e, parseBinLoop s acc = .error e := by
  induction s with
  | nil => intro acc h; simp at h
  | cons c rest ih =>
    intro acc h
    by_cases hc : c = '0' ∨ c = '1'
    · have hbd : binDigit c = .ok (if c = '1' then 1 else 0) := by
        rcases hc with h0 | h1
        · subst h0; simp [binDigit]
        · subst h1; simp [binDigit]
      rw [parseBinLoop_cons_ok c rest acc _ hbd]
      by_cases hov : acc * 2 + (if c = '1' then 1 else 0) > 65535
      · exact ⟨.errRange, by rw [if_pos hov]⟩
      · rw [if_neg hov]
        apply ih
        rcases h with ⟨c', hmem, hbad⟩
        rcases List.mem_cons.mp hmem with rfl | hmem'
        · exact absurd hc hbad
        · exact ⟨c', hmem', hbad⟩
    · have hbd : binDigit c = .error .errSyntax := by
        simp only [binDigit]
        rw [if_neg (fun h0 => hc (Or.inl h0)), if_neg (fun h1 => hc (Or.inr h1))]
      exact ⟨.errSyntax, parseBinLoop_cons_err c rest acc _ hbd⟩

theorem parseBinLoop_overflow (s : List Char) :
    ∀ acc, (∀ c ∈ s, c = '0' ∨ c = '1') → acc ≤ 65535 →
    s.foldl (fun a c => a * 2 + (if c = '1' then 1 else 0)) acc > 65535 →
    ∃ e, parseBinLoop s acc = .error e := by
  induction s with
  | nil => intro acc _ hacc hov; simp at hov; omega
  | cons c rest ih =>
    intro acc hval hacc hov
    have hc := hval c (List.mem_cons_self c rest)
    have hbd : binDigit c = .ok (if c = '1' then 1 else 0) := by
      rcases hc with h0 | h1
      · subst h0; simp [binDigit]
      · subst h1; simp [binDigit]
    rw [parseBinLoop_cons_ok c rest acc _ hbd]
    by_cases hov' : acc * 2 + (if c = '1' then 1 else 0) > 65535
    · exact ⟨.errRange, by rw [if_pos hov']⟩
    · rw [if_neg hov']
      apply ih _ (fun c' hc' => hval c' (List.mem_cons_of_mem c hc'))
        (by omega)
      simpa using hov

/-! Helper lemmas about the decimal decomposition. -/

theorem digitsLoop_zero (fuel : Nat) : digitsLoop fuel 0 = [] := by
  cases fuel <;> simp [digitsLoop]

theorem digitsLoop_mono (f1 : Nat) : ∀ (f2 n : Nat), n < 10 ^ f1 → f1 ≤ f2 →
    digitsLoop f2 n = digitsLoop f1 n := by
  induction f1 with
  | zero =>
    intro f2 n hn _
    have : n = 0 := by simpa using hn
    subst this
    rw [digitsLoop_zero, digitsLoop_zero]
  | succ f1 ih =>
    intro f2 n hn hle
    match f2, hle with
    | g + 1, _ =>
      by_cases h0 : n = 0
      · subst h0; rw [digitsLoop_zero, digitsLoop_zero]
      · show (if n = 0 then [] else digitsLoop g (n / 10) ++ [n % 10])
            = (if n = 0 then [] else digitsLoop f1 (n / 10) ++ [n % 10])
        rw [if_neg h0, if_neg h0]
        have hdiv : n / 10 < 10 ^ f1 := by
          rw [Nat.div_lt_iff_lt_mul (by norm_num)]
          calc n < 10 ^ (f1 + 1) := hn
          _ = 10 ^ f1 * 10 := by ring
        rw [ih g (n / 10) hdiv (by omega)]

theorem itoaDigits_one (n : Nat) (h1 : 1 ≤ n) (h2 : n < 10) :
    itoaDigits n = [n] := by
  have hn : ¬ n = 0 := by omega
  have hpow : n < 10 ^ 1 := by simpa using h2
  rw [itoaDigits, if_neg hn, digitsLoop_mono 1 n n hpow h1]
  have : n % 10 = n := by omega
  simp [digitsLoop, hn, this]

theorem itoaDigits_two (n : Nat) (h1 : 10 ≤ n) (h2 : n < 100) :
    itoaDigits n = [n / 10, n % 10] := by
  have hn : ¬ n = 0 := by omega
  have hpow : n < 10 ^ 2 := by simpa [pow_succ] using h2
  rw [itoaDigits, if_neg hn, digitsLoop_mono 2 n n hpow (by omega)]
  have ha : ¬ n / 10 = 0 := by omega
  have hb : n / 10 % 10 = n / 10 := by omega
  have hc : n / 10 / 10 = 0 := by omega
  simp [digitsLoop, hn, ha, hb, hc]

theorem itoaDigits_three (n : Nat) (h1 : 100 ≤ n) (h2 : n < 1000) :
    itoaDigits n = [n / 100, n / 10 % 10, n % 10] := by
  have hn : ¬ n = 0 := by omega
  have hpow : n < 10 ^ 3 := by simpa [pow_succ] using h2
  rw [itoaDigits, if_neg hn, digitsLoop_mono 3 n n hpow (by omega)]
  have ha : ¬ n / 10 = 0 := by omega
  have hc : n / 10 / 10 = n / 100 := by omega
  have hb : ¬ n / 100 = 0 := by omega
  have hd : n / 100 % 10 = n / 100 := by omega
  have he : n / 100 / 10 = 0 := by omega
  simp [digitsLoop, hn, ha, hb, hc, hd, he]

theorem itoaDigits_four (n : Nat) (h1 : 1000 ≤ n) (h2 : n < 10000) :
    itoaDigits n = [n / 1000, n / 100 % 10, n / 10 % 10, n % 10] := by
  have hn : ¬ n = 0 := by omega
  have hpow : n < 10 ^ 4 := by simpa [pow_succ] using h2
  rw [itoaDigits, if_neg hn, digitsLoop_mono 4 n n hpow (by omega)]
  have ha : ¬ n / 10 = 0 := by omega
  have hc : n / 10 / 10 = n / 100 := by omega
  have hb : ¬ n / 100 = 0 := by omega
  have he : n / 100 / 10 = n / 1000 := by omega
  have hd : ¬ n / 1000 = 0 := by omega
  have hf : n / 1000 % 10 = n / 1000 := by omega
  have hg : n / 1000 / 10 = 0 := by omega
  simp [digitsLoop, hn, ha, hb, hc, hd, he, hf, hg]

/-! Helper lemmas: evaluated decomposition, clear and digit-scan loops. -/

theorem splitNumberIntoDigits_ok (n : Int) (h0 : 0 ≤ n) (h9 : n ≤ 9999) :
    splitNumberIntoDigits n =
      .ok [((n.toNat / 1000 % 10 : Nat) : Int), ((n.toNat / 100 % 10 : Nat) : Int),
           ((n.toNat / 10 % 10 : Nat) : Int), ((n.toNat % 10 : Nat) : Int)] := by
  lift n to Nat using h0 with m
  have hm : m ≤ 9999 := by omega
  unfold splitNumberIntoDigits
  rw [if_neg (by omega : ¬ ((m : Int) > 9999))]
  show fillLoop (itoaChars m).length (itoaChars m) 0 (List.replicate 4 0) = _
  rw [itoaChars, if_neg (by omega : ¬ ((m : Int) < 0))]
  simp only [Int.toNat_natCast]
  have hcase : m = 0 ∨ (1 ≤ m ∧ m < 10) ∨ (10 ≤ m ∧ m < 100) ∨
      (100 ≤ m ∧ m < 1000) ∨ (1000 ≤ m ∧ m < 10000) := by omega
  rcases hcase with rfl | ⟨ha, hb⟩ | ⟨ha, hb⟩ | ⟨ha, hb⟩ | ⟨ha, hb⟩
  · rfl
  · rw [itoaDigits_one m ha hb]
    show Except.ok [0, 0, 0, ((m : Nat) : Int)] = _
    simp only [Except.ok.injEq, List.cons.injEq, and_true]
    omega
  · rw [itoaDigits_two m ha hb]
    show Except.ok [0, 0, ((m / 10 : Nat) : Int), ((m % 10 : Nat) : Int)] = _
    simp only [Except.ok.injEq, List.cons.injEq, and_true]
    omega
  · rw [itoaDigits_three m ha hb]
    show Except.ok [0, ((m / 100 : Nat) : Int), ((m / 10 % 10 : Nat) : Int),
      ((m % 10 : Nat) : Int)] = _
    simp only [Except.ok.injEq, List.cons.injEq, and_true]
    omega
  · rw [itoaDigits_four m ha hb]
    show Except.ok [((m / 1000 : Nat) : Int), ((m / 100 % 10 : Nat) : Int),
      ((m / 10 % 10 : Nat) : Int), ((m % 10 : Nat) : Int)] = _
    simp only [Except.ok.injEq, List.cons.injEq, and_true]
    omega

theorem splitNumberIntoDigits_big (n : Int) (h : n > 9999) :
    splitNumberIntoDigits n = .error .numberTooBig := by
  unfold splitNumberIntoDigits
  rw [if_pos h]

theorem splitNumberIntoDigits_neg (n : Int) (h : n < 0) :
    splitNumberIntoDigits n = .error .errSyntax := by
  unfold splitNumberIntoDigits
  rw [if_neg (by omega : ¬ (n > 9999))]
  show fillLoop (itoaChars n).length (itoaChars n) 0 (List.replicate 4 0) = _
  rw [itoaChars, if_pos h]
  rfl

theorem mapReg_eq_specReg (pos : Nat) (h : pos ≤ 3) :
    (if pos == 2 || pos == 3 then pos + 1 else pos) * 2 = specReg pos := by
  interval_cases pos <;> rfl

/-- The word-writes attempted by a run of the `Clear` loop. -/
def clearWrites (p : Nat) : Nat → List BusOp
  | 0 => []
  | count + 1 => .writeWord (p * 2) 0x0000 :: clearWrites (p + 1) count

theorem clearLoop_ok (conn : Conn) (hc : ∀ i, conn i = none) :
    ∀ (count k p : Nat),
    clearLoop conn k p count = (.ok (), clearWrites p count) := by
  intro count
  induction count with
  | zero => intro k p; rfl
  | succ c ih =>
    intro k p
    simp only [clearLoop, busOp_ok conn k _ (hc k), ih, clearWrites,
      List.singleton_append]

theorem clear_ok (conn : Conn) (hc : ∀ i, conn i = none) (k : Nat) :
    Clear conn k = (.ok (), clearOps) := by
  unfold Clear
  rw [clearLoop_ok conn hc 5 k 0]
  rfl

theorem writeDigit_ok (conn : Conn) (k pos : Nat) (d : Int)
    (hpos : pos ≤ 3) (h0 : 0 ≤ d) (h9 : d ≤ 9) (hk : conn k = none) :
    WriteDigit conn k pos d =
      (.ok (), [.writeWord (specReg pos) (digit.getD d.toNat 0)]) := by
  simp only [WriteDigit, if_neg (show ¬ pos > 3 by omega),
    if_neg (show ¬ d > 9 by omega), if_neg (show ¬ d < 0 by omega)]
  rw [mapReg_eq_specReg pos hpos]
  exact busOp_ok _ _ _ hk

theorem writeLoop_found (conn : Conn) (hc : ∀ i, conn i = none) :
    ∀ (ds : List Int), (∀ d ∈ ds, 0 ≤ d ∧ d ≤ 9) → ∀ (k pos : Nat),
    pos + ds.length ≤ 4 →
    writeLoop conn k pos true ds = (.ok (), digitWritesFrom pos ds) := by
  intro ds
  induction ds with
  | nil => intro _ k pos _; rfl
  | cons d rest ih =>
    intro hds k pos hlen
    obtain ⟨hd0, hd9⟩ := hds d (List.mem_cons_self d rest)
    have hpos : pos ≤ 3 := by
      simp only [List.length_cons] at hlen; omega
    simp only [writeLoop, ite_self, Bool.not_true, Bool.false_eq_true,
      if_false, writeDigit_ok conn k pos d hpos hd0 hd9 (hc k),
      List.length_singleton]
    rw [ih (fun x hx => hds x (List.mem_cons_of_mem d hx)) (k + 1) (pos + 1)
      (by simp only [List.length_cons] at hlen ⊢; omega)]
    simp [digitWritesFrom]

theorem writeLoop_scan (conn : Conn) (hc : ∀ i, conn i = none) :
    ∀ (ds : List Int), (∀ d ∈ ds, 0 ≤ d ∧ d ≤ 9) → ∀ (k pos : Nat),
    pos + ds.length ≤ 4 →
    writeLoop conn k pos false ds =
      (.ok (), digitWritesFrom (pos + leadZeros ds) (ds.drop (leadZeros ds))) := by
  intro ds
  induction ds with
  | nil => intro _ k pos _; rfl
  | cons d rest ih =>
    intro hds k pos hlen
    obtain ⟨hd0, hd9⟩ := hds d (List.mem_cons_self d rest)
    have hpos : pos ≤ 3 := by
      simp only [List.length_cons] at hlen; omega
    by_cases hd : d > 0
    · have hlz : leadZeros (d :: rest) = 0 := by
        simp [leadZeros, List.takeWhile_cons, show ¬ d ≤ 0 by omega]
      rw [hlz]
      simp only [writeLoop, if_pos hd, Bool.not_true, Bool.false_eq_true,
        if_false, writeDigit_ok conn k pos d hpos hd0 hd9 (hc k),
        List.length_singleton]
      rw [writeLoop_found conn hc rest
        (fun x hx => hds x (List.mem_cons_of_mem d hx)) (k + 1) (pos + 1)
        (by simp only [List.length_cons] at hlen ⊢; omega)]
      simp [digitWritesFrom]
    · have hlz : leadZeros (d :: rest) = leadZeros rest + 1 := by
        simp [leadZeros, List.takeWhile_cons, show d ≤ 0 by omega]
      rw [hlz]
      have hskip : writeLoop conn k pos false (d :: rest) =
          writeLoop conn k (pos + 1) false rest := by
        simp only [writeLoop, if_neg hd, Bool.not_false, if_true]
      rw [hskip, ih (fun x hx => hds x (List.mem_cons_of_mem d hx)) k (pos + 1)
        (by simp only [List.length_cons] at hlen ⊢; omega)]
      have harith : pos + 1 + leadZeros rest = pos + (leadZeros rest + 1) := by
        omega
      rw [List.drop_succ_cons, harith]

/-! Claims C1 to C4. -/

theorem writeDigit_trace (conn : Conn) (k pos : Nat) (d : Int)
    (hpos : pos ≤ 3) (h0 : 0 ≤ d) (h9 : d ≤ 9) :
    (WriteDigit conn k pos d).2 =
      [.writeWord (specReg pos) (digit.getD d.toNat 0)] := by
  simp only [WriteDigit, if_neg (show ¬ pos > 3 by omega),
    if_neg (show ¬ d > 9 by omega), if_neg (show ¬ d < 0 by omega)]
  rw [mapReg_eq_specReg pos hpos]
  exact busOp_trace _ _ _

theorem writeBinary_trace (conn : Conn) (k pos : Nat) (bs : List Char)
    (w : Nat) (hpos : pos ≤ 3) (hw : parseUint2 bs = .ok w) :
    (WriteBinary conn k pos bs).2 = [.writeWord (specReg pos) w] := by
  have hle := parseUint2_le bs w hw
  simp only [WriteBinary, if_neg (show ¬ pos > 3 by omega), hw,
    if_neg (show ¬ w > 65535 by omega)]
  rw [mapReg_eq_specReg pos hpos]
  exact busOp_trace _ _ _

/-- C1: for every logical display position p in [0,3], the single word write
issued by WriteDigit and by WriteBinary goes to physical sub-register offset
p*2 when p is 0 or 1 and to offset (p+1)*2 when p is 2 or 3 (`specReg`), and
the mapping is not the identity: at position 2 the write does not go to
offset 2*2. -/
theorem c1_colon_skip_mapping (conn : Conn) (k p : Nat) (hp : p ≤ 3)
    (d : Int) (h0 : 0 ≤ d) (h9 : d ≤ 9) (bs : List Char) (w : Nat)
    (hw : parseUint2 bs = .ok w) :
    ((WriteDigit conn k p d).2
        = [.writeWord (specReg p) (digit.getD d.toNat 0)]
      ∧ (WriteBinary conn k p bs).2 = [.writeWord (specReg p) w])
    ∧ (WriteDigit conn k 2 d).2
        ≠ [.writeWord (2 * 2) (digit.getD d.toNat 0)] := by
  refine ⟨⟨writeDigit_trace conn k p d hp h0 h9,
    writeBinary_trace conn k p bs w hp hw⟩, ?_⟩
  rw [writeDigit_trace conn k 2 d (by omega) h0 h9]
  simp [specReg]

theorem c1_witness :
    ((WriteDigit connOK 0 2 3).2
        = [.writeWord (specReg 2) (digit.getD (3 : Int).toNat 0)]
      ∧ (WriteBinary connOK 0 2 ("101".toList)).2
        = [.writeWord (specReg 2) 5])
    ∧ (WriteDigit connOK 0 2 3).2
        ≠ [.writeWord (2 * 2) (digit.getD (3 : Int).toNat 0)] :=
  c1_colon_skip_mapping connOK 0 2 (by decide) 3 (by decide) (by decide)
    ("101".toList) 5 rfl

/-- C2: for every position p in [0,3] and digit d in [0,9], WriteDigit issues
exactly one word write, whose value is the fixed segment-pattern table entry
for d, at the colon-skip-mapped register for p. -/
theorem c2_digit_patterns (conn : Conn) (k p : Nat) (hp : p ≤ 3)
    (d : Nat) (hd : d ≤ 9) :
    (WriteDigit conn k p ((d : Nat) : Int)).2 =
      [.writeWord (specReg p)
        ([0x0C3F, 0x0006, 0x00DB, 0x004F, 0x00E6, 0x00ED, 0x00FD, 0x0007,
          0x00FF, 0x00EF].getD d 0)] := by
  rw [writeDigit_trace conn k p (d : Int) hp (by omega)
    (by exact_mod_cast hd)]
  simp [digit]

theorem c2_witness :
    (WriteDigit connOK 0 3 ((8 : Nat) : Int)).2 =
      [.writeWord (specReg 3)
        ([0x0C3F, 0x0006, 0x00DB, 0x004F, 0x00E6, 0x00ED, 0x00FD, 0x0007,
          0x00FF, 0x00EF].getD 8 0)] :=
  c2_digit_patterns connOK 0 3 (by decide) 8 (by decide)

/-- C3 counterexample: at pos = 0 and d = -1 (a digit outside [0,9]),
WriteDigit does not return the digit-too-large error — the unchecked
negative index panics instead. -/
theorem c3_counterexample :
    (WriteDigit connOK 0 0 (-1)).1 ≠ Outcome.error HTErr.digitTooBig := by
  decide

/-- C3 amended: WriteDigit returns the position-range error for pos > 3 and
the digit-too-large error for d > 9, with zero bus writes in both cases; a
negative d is not caught by the validation and instead panics on the
out-of-range table index, still with zero bus writes. -/
theorem c3_amended_validation (conn : Conn) (k pos : Nat) (d : Int) :
    (pos > 3 → WriteDigit conn k pos d = (.error .positionOutOfRange, []))
    ∧ (pos ≤ 3 → d > 9 → WriteDigit conn k pos d = (.error .digitTooBig, []))
    ∧ (pos ≤ 3 → d < 0 → WriteDigit conn k pos d = (.panicked, [])) := by
  refine ⟨fun h => ?_, fun h h9 => ?_, fun h hneg => ?_⟩
  · simp [WriteDigit, h]
  · simp [WriteDigit, show ¬ pos > 3 by omega, h9]
  · simp [WriteDigit, show ¬ pos > 3 by omega, show ¬ d > 9 by omega, hneg]

theorem c3_amended_witness :
    WriteDigit connOK 0 4 0 = (.error .positionOutOfRange, [])
    ∧ WriteDigit connOK 0 0 10 = (.error .digitTooBig, [])
    ∧ WriteDigit connOK 0 0 (-1) = (.panicked, []) :=
  ⟨(c3_amended_validation connOK 0 4 0).1 (by decide),
   (c3_amended_validation connOK 0 0 10).2.1 (by decide) (by decide),
   (c3_amended_validation connOK 0 0 (-1)).2.2 (by decide) (by decide)⟩

/-- C4: splitNumberIntoDigits returns, for every n in [0,9999], the 4-element
zero-left-padded most-significant-first decimal digit sequence of n, and
fails with the number-too-big error for every n > 9999. -/
theorem c4_split_correct (n : Int) :
    (0 ≤ n → n ≤ 9999 →
      splitNumberIntoDigits n =
        .ok [((n.toNat / 1000 % 10 : Nat) : Int),
             ((n.toNat / 100 % 10 : Nat) : Int),
             ((n.toNat / 10 % 10 : Nat) : Int),
             ((n.toNat % 10 : Nat) : Int)])
    ∧ (n > 9999 → splitNumberIntoDigits n = .error .numberTooBig) :=
  ⟨fun h0 h9 => splitNumberIntoDigits_ok n h0 h9,
   fun h => splitNumberIntoDigits_big n h⟩

theorem c4_witness :
    splitNumberIntoDigits 1234 = .ok [1, 2, 3, 4]
    ∧ splitNumberIntoDigits 10000 = .error .numberTooBig :=
  ⟨(c4_split_correct 1234).1 (by decide) (by decide),
   (c4_split_correct 10000).2 (by decide)⟩

/-! Claims C5 to C10. -/

/-- Spec side: the zero-left-padded 4-digit decimal decomposition of a
nonnegative number. -/
def specDigits (n : Int) : List Int :=
  [((n.toNat / 1000 % 10 : Nat) : Int), ((n.toNat / 100 % 10 : Nat) : Int),
   ((n.toNat / 10 % 10 : Nat) : Int), ((n.toNat % 10 : Nat) : Int)]

/-- C5: for every n in [0,9999] (under a succeeding connection), WriteNumber
first issues the five panel-clear writes, then writes one digit per slot from
the first nonzero digit onward, issuing nothing for the leading zero
slots. -/
theorem c5_writeNumber_scan (conn : Conn) (hc : ∀ i, conn i = none)
    (k : Nat) (n : Int) (h0 : 0 ≤ n) (h9 : n ≤ 9999) :
    WriteNumber conn k n =
      (.ok (), clearOps ++
        digitWritesFrom (leadZeros (specDigits n))
          ((specDigits n).drop (leadZeros (specDigits n)))) := by
  have hsplit := splitNumberIntoDigits_ok n h0 h9
  have hds : ∀ d ∈ specDigits n, 0 ≤ d ∧ d ≤ 9 := by
    simp only [specDigits, List.mem_cons, List.not_mem_nil, or_false]
    rintro d (rfl | rfl | rfl | rfl) <;> omega
  have hlen : (0 : Nat) + (specDigits n).length ≤ 4 := by
    simp [specDigits]
  simp only [WriteNumber, hsplit, clear_ok conn hc k]
  rw [show [((n.toNat / 1000 % 10 : Nat) : Int), ((n.toNat / 100 % 10 : Nat) : Int),
        ((n.toNat / 10 % 10 : Nat) : Int), ((n.toNat % 10 : Nat) : Int)]
      = specDigits n from rfl]
  rw [writeLoop_scan conn hc (specDigits n) hds (k + clearOps.length) 0 hlen]
  simp

theorem c5_witness :
    WriteNumber connOK 0 10 =
      (.ok (), clearOps ++
        digitWritesFrom (leadZeros (specDigits 10))
          ((specDigits 10).drop (leadZeros (specDigits 10)))) :=
  c5_writeNumber_scan connOK (fun _ => rfl) 0 10 (by decide) (by decide)

/-- C6 counterexample: WriteNumber(10) never writes the 16-bit pattern
0x004F to position 2's colon-skip-mapped register — the digit written there
is 1, whose pattern is 0x0006, not 0x004F (the pattern of 3). -/
theorem c6_counterexample :
    BusOp.writeWord (specReg 2) 0x004F ∉ (WriteNumber connOK 0 10).2 := by
  decide

/-- C6 amended: WriteNumber(10) issues a Clear, skips positions 0 and 1 as
leading zeros, then writes digit 1 at position 2's colon-skip-mapped
register with the 16-bit pattern 0x0006, and digit 0 at position 3's mapped
register with pattern 0x0C3F. -/
theorem c6_amended_writeNumber10 :
    WriteNumber connOK 0 10 =
      (.ok (), clearOps ++
        [.writeWord (specReg 2) 0x0006, .writeWord (specReg 3) 0x0C3F]) := by
  decide

/-- C7 counterexample: at n = -1 (outside [0,9999]), WriteNumber does not
fail with the number-too-large error — the minus sign makes the per-character
conversion fail with a syntax error instead. -/
theorem c7_counterexample :
    (WriteNumber connOK 0 (-1)).1 ≠ Outcome.error HTErr.numberTooBig := by
  decide

/-- C7 amended: for every n > 9999 WriteNumber fails with the
number-too-large error and performs no bus I/O; for every n < 0 it fails with
the syntax error of the digit conversion, likewise before any bus I/O. -/
theorem c7_amended_range_errors (conn : Conn) (k : Nat) (n : Int) :
    (n > 9999 → WriteNumber conn k n = (.error .numberTooBig, []))
    ∧ (n < 0 → WriteNumber conn k n = (.error .errSyntax, [])) := by
  constructor
  · intro h
    simp only [WriteNumber, splitNumberIntoDigits_big n h]
  · intro h
    simp only [WriteNumber, splitNumberIntoDigits_neg n h]

theorem c7_amended_witness :
    WriteNumber connOK 0 10000 = (.error .numberTooBig, [])
    ∧ WriteNumber connOK 0 (-1) = (.error .errSyntax, []) :=
  ⟨(c7_amended_range_errors connOK 0 10000).1 (by decide),
   (c7_amended_range_errors connOK 0 (-1)).2 (by decide)⟩

/-- C8: Start issues, in order, the oscillator-enable command byte 0x21, the
dummy read, the display-on byte 0x81, and the brightness-15 byte 0xEF; the
first failing step's error is returned unmodified and no later step is
attempted. -/
theorem c8_start_sequence (conn : Conn) (e : HTErr) :
    ((∀ i, conn i = none) →
      Start conn none =
        (.ok (), [.writeByte 0x21, .readByte, .writeByte 0x81,
          .writeByte 0xEF]))
    ∧ (conn 0 = some e → Start conn none = (.error e, [.writeByte 0x21]))
    ∧ (conn 0 = none → conn 1 = some e →
      Start conn none = (.error e, [.writeByte 0x21, .readByte]))
    ∧ (conn 0 = none → conn 1 = none → conn 2 = some e →
      Start conn none =
        (.error e, [.writeByte 0x21, .readByte, .writeByte 0x81]))
    ∧ (conn 0 = none → conn 1 = none → conn 2 = none → conn 3 = some e →
      Start conn none =
        (.error e, [.writeByte 0x21, .readByte, .writeByte 0x81,
          .writeByte 0xEF])) := by
  have hb1 : (0x20 ||| 0x21 : Nat) = 0x21 := by decide
  have hb2 : (0x80 ||| 0x01 : Nat) = 0x81 := by decide
  have hb3 : (0xE0 ||| 15 : Nat) = 0xEF := by decide
  refine ⟨fun h => ?_, fun h0 => ?_, fun h0 h1 => ?_, fun h0 h1 h2 => ?_,
    fun h0 h1 h2 h3 => ?_⟩
  · simp [Start, SetDisplay, SetBrightness, busOp, h 0, h 1, h 2, h 3,
      hb1, hb2, hb3]
  · simp [Start, SetDisplay, SetBrightness, busOp, h0, hb1]
  · simp [Start, SetDisplay, SetBrightness, busOp, h0, h1, hb1]
  · simp [Start, SetDisplay, SetBrightness, busOp, h0, h1, h2, hb1, hb2]
  · simp [Start, SetDisplay, SetBrightness, busOp, h0, h1, h2, h3, hb1, hb2,
      hb3]

theorem c8_witness :
    Start connOK none =
      (.ok (), [.writeByte 0x21, .readByte, .writeByte 0x81, .writeByte 0xEF])
    ∧ Start (connFailAt 0) none = (.error (.busError 7), [.writeByte 0x21]) :=
  ⟨(c8_start_sequence connOK (.busError 7)).1 (fun _ => rfl),
   (c8_start_sequence (connFailAt 0) (.busError 7)).2.1 rfl⟩

/-- C9: for every pos in [0,3], a successfully parsed binary string leads to
exactly one word write of the parsed value (at most 16 bits) at the
colon-skip-mapped register; a string with a non-binary character, or one
whose binary value exceeds 16 bits, fails with a parse or range error and
zero bus writes; the 16-character string for 0x004F writes 0x004F. -/
theorem c9_writeBinary (conn : Conn) (k pos : Nat) (bs : List Char)
    (hpos : pos ≤ 3) :
    (∀ w, parseUint2 bs = .ok w →
      w ≤ 65535 ∧ (WriteBinary conn k pos bs).2
        = [.writeWord (specReg pos) w])
    ∧ ((∃ c ∈ bs, ¬(c = '0' ∨ c = '1')) →
      ∃ e, WriteBinary conn k pos bs = (.error e, []))
    ∧ ((∀ c ∈ bs, c = '0' ∨ c = '1') → binVal bs > 65535 →
      ∃ e, WriteBinary conn k pos bs = (.error e, []))
    ∧ (WriteBinary conn k pos ("0000000001001111".toList)).2
        = [.writeWord (specReg pos) 0x004F] := by
  have h1 : ∀ (s : List Char) (w : Nat), parseUint2 s = .ok w →
      w ≤ 65535 ∧ (WriteBinary conn k pos s).2
        = [.writeWord (specReg pos) w] :=
    fun s w hw => ⟨parseUint2_le s w hw,
      writeBinary_trace conn k pos s w hpos hw⟩
  refine ⟨h1 bs, ?_, ?_, ?_⟩
  · intro hbad
    have herr : ∃ e, parseUint2 bs = .error e := by
      match bs, hbad with
      | c :: rest, hbad => exact parseBinLoop_invalid (c :: rest) 0 hbad
    obtain ⟨e, he⟩ := herr
    exact ⟨e, by simp only [WriteBinary, if_neg (show ¬ pos > 3 by omega), he]⟩
  · intro hval hbig
    have herr : ∃ e, parseUint2 bs = .error e := by
      match bs with
      | [] => exact ⟨.errSyntax, rfl⟩
      | c :: rest =>
        exact parseBinLoop_overflow (c :: rest) 0 hval (by omega) hbig
    obtain ⟨e, he⟩ := herr
    exact ⟨e, by simp only [WriteBinary, if_neg (show ¬ pos > 3 by omega), he]⟩
  · exact (h1 ("0000000001001111".toList) 0x004F rfl).2

theorem c9_witness :
    (WriteBinary connOK 0 0 ("0000000001001111".toList)).2
      = [BusOp.writeWord (specReg 0) 0x004F] :=
  (c9_writeBinary connOK 0 0 ("0000000001001111".toList) (by decide)).2.2.2

/-- C10: WriteNumber(0) succeeds while issuing only the five Clear
word-writes: the all-zero decomposition makes every slot a leading zero, so
no digit write is issued and 0 shows as a blank panel. -/
theorem c10_writeNumber_zero (conn : Conn) (hc : ∀ i, conn i = none)
    (k : Nat) :
    WriteNumber conn k 0 = (.ok (), clearOps) ∧ clearOps.length = 5 := by
  refine ⟨?_, rfl⟩
  have hsplit : splitNumberIntoDigits 0 = .ok [0, 0, 0, 0] := rfl
  simp only [WriteNumber, hsplit, clear_ok conn hc k]
  rw [writeLoop_scan conn hc [0, 0, 0, 0] (by decide) (k + clearOps.length) 0
    (by decide)]
  rfl

theorem c10_witness :
    WriteNumber connOK 0 0 = (.ok (), clearOps) ∧ clearOps.length = 5 :=
  c10_writeNumber_zero connOK (fun _ => rfl) 0

end HT16K33
